import Mathlib

/-!
Verification of the reconciliation-scheduling engine of sveltosctl
(internal/commands/techsupport_reconciler.go and
internal/commands/reconciler_utils.go), shallowly embedded in Lean 4.

Conventions of the embedding:
* Go `time.Time` values are modelled as `Int` (seconds); `a.Before(b)` is
  `a < b`, `a.Sub(b)` is `a - b`, `a.Add(-d*time.Second)` is `a - d`.
* Go `map` / `libsveltosset.Set` values are modelled as total functions /
  `Finset`; an absent map entry is `none` (for `techsupportMap`) or the
  empty set (for `clusterMap`, whose entries are auto-created by
  `getClusterMapForEntry`, so only membership is observable).
* External collaborators (the robfig cron library, the collector worker
  pool, the object store) are modelled by the contracts the source relies
  on, as parameters or as abstract result values.
* Fallible Go functions returning `error` become `Except String` /
  `Option String` values.
-/

namespace Sveltosctl

/-- corev1.ObjectReference as used by `getKeyFromObject` and the reverse
index maps: (namespace, name, kind, apiVersion); equality is structural.
The Go field `Namespace` is spelled `ns` (a Lean keyword otherwise). -/
structure ObjectReference where
  ns : String
  name : String
  kind : String
  apiVersion : String
deriving DecidableEq, Repr

/-- The process-wide reverse-index state guarded by `mux` in the source:
`techsupportMap` (request → last computed match set), `clusterMap`
(cluster → requests consuming it; absent entry ≡ empty set, matching
`getClusterMapForEntry` auto-creation), and `techsupports`
(request → its cluster selector, stored as an opaque string). -/
structure IndexState where
  techsupportMap : ObjectReference → Option (Finset ObjectReference)
  clusterMap : ObjectReference → Finset ObjectReference
  techsupports : ObjectReference → Option String

/-- The initial state of the three package-level maps: all empty. -/
def emptyIndexState : IndexState :=
  { techsupportMap := fun _ => none
    clusterMap := fun _ => ∅
    techsupports := fun _ => none }

/-- `updateMaps` from techsupport_reconciler.go.  `techsupportInfo` is the
key of the techsupport object, `matchingClusterRefs` its freshly computed
`Status.MatchingClusterRefs`.  The Go loop inserting the request into the
consumer set of every element of the list is modelled pointwise over the
set of the list's elements (`List.toFinset`; the per-element `Insert` is
idempotent, so duplicates in the list are immaterial), and the loop over
`toBeRemoved` likewise. -/
def updateMaps (techsupportInfo : ObjectReference) (clusterSelector : String)
    (matchingClusterRefs : List ObjectReference) (s : IndexState) : IndexState :=
  let currentClusters : Finset ObjectReference := matchingClusterRefs.toFinset
  -- Get list of Clusters not matched anymore by Techsupport
  let toBeRemoved : Finset ObjectReference :=
    match s.techsupportMap techsupportInfo with
    | some v => v \ currentClusters
    | none => ∅
  -- For each currently matching Cluster, add Techsupport as consumer
  let afterInsert : ObjectReference → Finset ObjectReference := fun entry =>
    if entry ∈ currentClusters then insert techsupportInfo (s.clusterMap entry)
    else s.clusterMap entry
  -- For each Cluster not matched anymore, remove Techsupport as consumer
  let afterErase : ObjectReference → Finset ObjectReference := fun entry =>
    if entry ∈ toBeRemoved then (afterInsert entry).erase techsupportInfo
    else afterInsert entry
  { techsupportMap := fun k =>
      if k = techsupportInfo then some currentClusters else s.techsupportMap k
    clusterMap := afterErase
    techsupports := fun k =>
      if k = techsupportInfo then some clusterSelector else s.techsupports k }

/-- `cleanMaps` from techsupport_reconciler.go: delete the request from
`techsupportMap` and `techsupports`, and erase it from every consumer set
of `clusterMap` (the Go full scan over existing entries; erasing from the
empty set of a non-existent entry is a no-op, so the pointwise model
agrees). -/
def cleanMaps (techsupportInfo : ObjectReference) (s : IndexState) : IndexState :=
  { techsupportMap := fun k =>
      if k = techsupportInfo then none else s.techsupportMap k
    clusterMap := fun entry => (s.clusterMap entry).erase techsupportInfo
    techsupports := fun k =>
      if k = techsupportInfo then none else s.techsupports k }

/-- One call into the reverse index: `updateMaps` (performed by the normal
reconciliation path) or `cleanMaps` (performed by the terminating path). -/
inductive IndexOp where
  | update (techsupportInfo : ObjectReference) (clusterSelector : String)
      (matchingClusterRefs : List ObjectReference)
  | remove (techsupportInfo : ObjectReference)

/-- Apply one reverse-index call to the state. -/
def applyIndexOp (op : IndexOp) (s : IndexState) : IndexState :=
  match op with
  | .update info sel refs => updateMaps info sel refs s
  | .remove info => cleanMaps info s

/-- Run a sequence of reverse-index calls from a starting state. -/
def runIndexOps (ops : List IndexOp) (s : IndexState) : IndexState :=
  ops.foldl (fun acc op => applyIndexOp op acc) s

/-- Reverse-index consistency: `T ∈ techsupportMap[R] ↔ R ∈ clusterMap[T]`
for every request `R` and cluster `T`.  The right-to-left direction is
exactly "no stale reverse entries": a cluster's consumer set mentions only
requests that currently match it. -/
def consistent (s : IndexState) : Prop :=
  ∀ R T : ObjectReference,
    (∃ ts, s.techsupportMap R = some ts ∧ T ∈ ts) ↔ R ∈ s.clusterMap T

/-- k-fold iteration of a schedule's `next` function: the k-th element of
the occurrence chain that the missed-starts loop of `getNextScheduleTime`
walks. -/
def iterNext (next : Int → Int) : Nat → Int → Int
  | 0, t => t
  | k + 1, t => iterNext next k (next t)

/-! ## Scheduler: getNextScheduleTime and shouldSchedule (reconciler_utils.go) -/

/-- Contract of a parsed cron schedule, per the external cron library used
by the source (robfig/cron): `next t` is the first occurrence strictly
after `t`.  `isOcc` is the set of occurrence instants of the schedule;
`next_gt` is the library's documented strictness, `next_occ` and
`next_least` say `next t` is the least occurrence above `t`. -/
structure CronSchedule where
  next : Int → Int
  isOcc : Int → Prop
  next_gt : ∀ t, t < next t
  next_occ : ∀ t, isOcc (next t)
  next_least : ∀ t u, t < u → isOcc u → next t ≤ u

/-- The error text of the missed-run ceiling in `getNextScheduleTime`
(maxNumberOfFailures = 100). -/
def tooManyMissedMsg : String :=
  "too many missed start times (> 100). Set or decrease .spec.startingDeadlineSeconds or check clock skew"

/-- The `for t := sched.Next(earliestTime); t.Before(now); t = sched.Next(t)`
loop of `getNextScheduleTime`.  `fuel` is the remaining budget of the
`starts` counter: the Go loop increments `starts` each iteration and fails
once `starts > 100`, so a call with `fuel = 100 - starts` is exact: the
iteration that would make `starts = 101` instead errors out. -/
def missedStartsLoop (next : Int → Int) (now : Int) : Int → Nat → Except String Unit
  | t, fuel =>
    if t < now then
      match fuel with
      | 0 => .error tooManyMissedMsg
      | f + 1 => missedStartsLoop next now (next t) f
    else .ok ()

/-- The baseline of `getNextScheduleTime`: the last run time when one is
recorded, else the creation timestamp (a recently created instance). -/
def scheduleBaseline (lastRunTime : Option Int) (creationTimestamp : Int) : Int :=
  match lastRunTime with
  | some t => t
  | none => creationTimestamp

/-- The `earliestTime` computation of `getNextScheduleTime`: the baseline,
clamped forward to `now - startingDeadlineSeconds` when a deadline is set
and that point is later (`schedulingDeadline.After(earliestTime)`). -/
def effectiveEarliestTime (lastRunTime : Option Int) (creationTimestamp : Int)
    (startingDeadlineSeconds : Option Int) (now : Int) : Int :=
  let earliestTime : Int := scheduleBaseline lastRunTime creationTimestamp
  match startingDeadlineSeconds with
  | some d =>
    -- controller is not going to schedule anything below this point
    let schedulingDeadline := now - d
    if earliestTime < schedulingDeadline then schedulingDeadline else earliestTime
  | none => earliestTime

/-- `getNextScheduleTime` from reconciler_utils.go, for an already parsed
schedule (cron parsing is the external library's job; an unparsable
expression errors out before any of this logic runs).  The `collection`
interface reads become explicit arguments: `lastRunTime`,
`creationTimestamp` and `startingDeadlineSeconds`.  Runs the
missed-starts loop from the effective earliest time; if it does not
overflow, the returned next run is `sched.Next(now)`. -/
def getNextScheduleTime (sched : CronSchedule) (lastRunTime : Option Int)
    (creationTimestamp : Int) (startingDeadlineSeconds : Option Int)
    (now : Int) : Except String Int :=
  match missedStartsLoop sched.next now
      (sched.next (effectiveEarliestTime lastRunTime creationTimestamp
        startingDeadlineSeconds now)) 100 with
  | .error e => .error e
  | .ok _ => .ok (sched.next now)

/-- `shouldSchedule` from reconciler_utils.go.  The `collection` reads
become arguments; the caller (`schedule`) guarantees `getNextScheduleTime`
is non-nil when this runs, so `nextScheduleTime` is a plain `Int`.
`diff.Seconds() >= ignoreTimeInSecond` is `30 ≤ now - last` in the
integer-seconds time model. -/
def shouldSchedule (nextScheduleTime : Int) (lastRunTime : Option Int)
    (now : Int) : Bool :=
  if now < nextScheduleTime then false
  else
    match lastRunTime with
    | some last => decide (30 ≤ now - last)
    | none => true

/-- A concrete parsed schedule used to exercise the scheduler: the
standard-cron expression running every minute, in the integer-seconds
time model (occurrences are the multiples of 60, `next` is the least
multiple of 60 strictly above `t`). -/
def minuteSched : CronSchedule where
  next := fun t => 60 * (t / 60) + 60
  isOcc := fun u => u % 60 = 0
  next_gt := by
    intro t
    show t < 60 * (t / 60) + 60
    omega
  next_occ := by
    intro t
    show (60 * (t / 60) + 60) % 60 = 0
    omega
  next_least := by
    intro t u hlt hocc
    show 60 * (t / 60) + 60 ≤ u
    have hocc' : u % 60 = 0 := hocc
    omega

/-! ## Collector results and updateStatus (reconciler_utils.go) -/

/-- `collector.Result.ResultStatus`: the outcome reported by the
collector worker pool for a (request name, collection kind) pair. -/
inductive ResultStatus where
  | Collected
  | InProgress
  | Failed
  | Unavailable
deriving DecidableEq, Repr

/-- `collector.Result`: outcome plus the job error's text (`Err.Error()`;
only read in the `Failed` branch). -/
structure CollectorResult where
  resultStatus : ResultStatus
  errText : String
deriving DecidableEq, Repr

/-- `utilsv1beta1.CollectionStatus`: the persisted last-run status enum. -/
inductive CollectionStatus where
  | CollectionStatusCollected
  | CollectionStatusInProgress
  | CollectionStatusFailed
deriving DecidableEq, Repr

/-- The status fields of a collection instance touched by `updateStatus`
through the `collection` interface.  Modelled from the spec: the concrete
`setLastRunStatus` / `setFailureMessage` implementations live outside the
covered source; per the spec's persisted-fields contract they store their
argument into `lastRunStatus (enum, nullable)` and
`failureMessage (string, empty if none)`. -/
structure CollectionInstanceStatus where
  lastRunStatus : Option CollectionStatus
  failureMessage : String
deriving DecidableEq, Repr

/-- `updateStatus` from reconciler_utils.go: map the collector result onto
the status enum (`Failed` also copying the error text into `message`,
which otherwise stays the Go zero value `""`), except that `Unavailable`
returns early without touching the instance; on the other branches both
`setLastRunStatus` and `setFailureMessage` run. -/
def updateStatus (result : CollectorResult) (inst : CollectionInstanceStatus) :
    CollectionInstanceStatus :=
  match result.resultStatus with
  | .Collected =>
    { inst with lastRunStatus := some .CollectionStatusCollected, failureMessage := "" }
  | .InProgress =>
    { inst with lastRunStatus := some .CollectionStatusInProgress, failureMessage := "" }
  | .Failed =>
    { inst with lastRunStatus := some .CollectionStatusFailed,
                failureMessage := result.errText }
  | .Unavailable => inst

/-! ## Event filters (techsupport_reconciler.go) -/

/-- The fields of a CAPI `clusterv1.Cluster` read (or deliberately not
read) by the predicates: `Spec.Paused`, the labels, and readiness.  The
external CAPI type carries readiness information in its status;
`ClusterPredicate` never reads it, but it is part of the event space the
properties quantify over.  Go's `reflect.DeepEqual` on the label map is
modelled as structural equality of the label association list. -/
structure CAPICluster where
  paused : Bool
  ready : Bool
  labels : List (String × String)
deriving DecidableEq, Repr

/-- The fields of a `libsveltosv1beta1.SveltosCluster` read by the
predicates: `Spec.Paused`, `Status.Ready` and the labels. -/
structure SveltosCluster where
  paused : Bool
  ready : Bool
  labels : List (String × String)
deriving DecidableEq, Repr

/-- `ClusterPredicate.Update` from techsupport_reconciler.go: the old
object (a Go pointer, hence `Option`) being nil admits; then admit on a
pause transition true→false, then on a label change; otherwise reject.
There is no readiness check on this path. -/
def clusterPredicateUpdate (objOld : Option CAPICluster) (objNew : CAPICluster) : Bool :=
  match objOld with
  | none => true
  | some oldCluster =>
    -- return true if Cluster.Spec.Paused has changed from true to false
    if oldCluster.paused && !objNew.paused then true
    else if oldCluster.labels ≠ objNew.labels then true
    else false

/-- `SveltosClusterPredicate.Update` from techsupport_reconciler.go: nil
old object admits; then pause transition true→false, then readiness
transition false→true, then label change; otherwise reject. -/
def sveltosClusterPredicateUpdate (objOld : Option SveltosCluster)
    (objNew : SveltosCluster) : Bool :=
  match objOld with
  | none => true
  | some oldCluster =>
    if oldCluster.paused && !objNew.paused then true
    else if !oldCluster.ready && objNew.ready then true
    else if oldCluster.labels ≠ objNew.labels then true
    else false

/-! ## Terminating path (reconciler_utils.go and techsupport_reconciler.go) -/

/-- `reconcile.Result`: requeue decision returned to controller-runtime.
The source's terminating path only ever builds the zero value
`reconcile.Result\x7b\x7d` (no requeue). -/
structure ReconcileResult where
  requeue : Bool
  requeueAfter : Int
deriving DecidableEq, Repr

/-- `utilsv1beta1.TechsupportFinalizer` (an opaque identifier here). -/
def techsupportFinalizer : String := "techsupportfinalizer.projectsveltos.io"

/-- `removeQueuedJobsAndFinalizer` from reconciler_utils.go, with the
outcome of the external `collector.CleanupEntries` call passed in as
`cleanupErr` (`some e` = the call failed with error text `e`).  On
cleanup failure it returns the error before touching the finalizers;
on success it removes the finalizer when present
(`controllerutil.RemoveFinalizer` drops every occurrence). -/
def removeQueuedJobsAndFinalizer (cleanupErr : Option String)
    (finalizers : List String) (finalizer : String) :
    Option String × List String :=
  match cleanupErr with
  | some e => (some e, finalizers)
  | none =>
    (none,
      if finalizer ∈ finalizers then finalizers.filter (fun f => f ≠ finalizer)
      else finalizers)

/-- `reconcileDelete` from reconciler_utils.go, with the outcomes of the
external `CleanupEntries` and `UpdateResource` calls passed in.  Returns
the `reconcile.Result` (always the zero value here), the error if any,
and the instance's finalizer list as left in memory. -/
def reconcileDelete (cleanupErr updateErr : Option String)
    (finalizers : List String) (finalizer : String) :
    ReconcileResult × Option String × List String :=
  match removeQueuedJobsAndFinalizer cleanupErr finalizers finalizer with
  | (some e, fs) => (⟨false, 0⟩, some e, fs)
  | (none, fs) =>
    match updateErr with
    | some e => (⟨false, 0⟩, some e, fs)
    | none => (⟨false, 0⟩, none, fs)

/-- Everything observable about one pass of the terminating branch of
`TechsupportReconciler`: the returned `reconcile.Result`, the returned
error, the instance's finalizers, and the reverse-index state. -/
structure TerminatingOutcome where
  result : ReconcileResult
  error : Option String
  finalizers : List String
  index : IndexState

/-- The terminating branch of `TechsupportReconciler` from
techsupport_reconciler.go (taken when `DeletionTimestamp` is set): run
`reconcileDelete`; on error return its result and the error (leaving the
reverse index untouched); on success run `cleanMaps` and return
`reconcile.Result\x7b\x7d, nil`. -/
def techsupportReconcilerDelete (cleanupErr updateErr : Option String)
    (finalizers : List String) (techsupportInfo : ObjectReference)
    (s : IndexState) : TerminatingOutcome :=
  match reconcileDelete cleanupErr updateErr finalizers techsupportFinalizer with
  | (result, some e, fs) => ⟨result, some e, fs, s⟩
  | (_, none, fs) => ⟨⟨false, 0⟩, none, fs, cleanMaps techsupportInfo s⟩

/-! ## Helper lemmas -/

theorem consistent_empty : consistent emptyIndexState := by
  intro R T
  simp [emptyIndexState]

theorem consistent_updateMaps (info : ObjectReference) (sel : String)
    (refs : List ObjectReference) (s : IndexState) (h : consistent s) :
    consistent (updateMaps info sel refs s) := by
  intro R T
  by_cases hR : R = info
  · subst hR
    simp only [updateMaps, if_pos rfl]
    constructor
    · rintro ⟨ts, hts, hmem⟩
      obtain rfl : refs.toFinset = ts := by
        simpa using hts
      have hTcur : T ∈ refs.toFinset := hmem
      have hTnot : T ∉ (match s.techsupportMap R with
          | some v => v \ refs.toFinset
          | none => (∅ : Finset ObjectReference)) := by
        cases hmap : s.techsupportMap R with
        | none => simp
        | some v => simp [hTcur]
      simp only [hTnot, if_neg, hTcur, if_pos]
      exact Finset.mem_insert_self _ _
    · intro hmem
      refine ⟨refs.toFinset, rfl, ?_⟩
      by_cases hTcur : T ∈ refs.toFinset
      · exact hTcur
      · exfalso
        by_cases hTrem : T ∈ (match s.techsupportMap R with
            | some v => v \ refs.toFinset
            | none => (∅ : Finset ObjectReference))
        · rw [if_pos hTrem] at hmem
          exact (Finset.mem_erase.mp hmem).1 rfl
        · rw [if_neg hTrem, if_neg hTcur] at hmem
          have hold := (h R T).mpr hmem
          obtain ⟨ts, hts, hmemts⟩ := hold
          apply hTrem
          rw [hts]
          exact Finset.mem_sdiff.mpr ⟨hmemts, hTcur⟩
  · have hmapR : (updateMaps info sel refs s).techsupportMap R = s.techsupportMap R := by
      simp [updateMaps, hR]
    rw [hmapR]
    have hcm : R ∈ (updateMaps info sel refs s).clusterMap T ↔ R ∈ s.clusterMap T := by
      simp only [updateMaps]
      by_cases h1 : T ∈ (match s.techsupportMap info with
          | some v => v \ refs.toFinset
          | none => (∅ : Finset ObjectReference)) <;>
        by_cases h2 : T ∈ refs.toFinset <;>
          simp [h1, h2, Finset.mem_erase, Finset.mem_insert, hR]
    rw [hcm]
    exact h R T

theorem consistent_cleanMaps (info : ObjectReference) (s : IndexState)
    (h : consistent s) : consistent (cleanMaps info s) := by
  intro R T
  by_cases hR : R = info
  · subst hR
    simp [cleanMaps, Finset.mem_erase]
  · simp only [cleanMaps, if_neg hR, Finset.mem_erase]
    rw [← h R T]
    simp [hR]

theorem consistent_runIndexOps (ops : List IndexOp) (s : IndexState)
    (h : consistent s) : consistent (runIndexOps ops s) := by
  induction ops generalizing s with
  | nil => exact h
  | cons op rest ih =>
    simp only [runIndexOps, List.foldl_cons]
    apply ih
    cases op with
    | update info sel refs => exact consistent_updateMaps info sel refs s h
    | remove info => exact consistent_cleanMaps info s h

/-- `minuteSched` fires at least every 60 seconds: its firing-period is 60. -/
theorem minuteSched_next_le (t : Int) : minuteSched.next t ≤ t + 60 := by
  show 60 * (t / 60) + 60 ≤ t + 60
  omega

theorem self_le_iterNext (next : Int → Int) (hgt : ∀ t, t < next t) :
    ∀ (k : Nat) (t : Int), t ≤ iterNext next k t := by
  intro k
  induction k with
  | zero => intro t; exact le_refl t
  | succ k ih =>
    intro t
    calc t ≤ next t := le_of_lt (hgt t)
    _ ≤ iterNext next k (next t) := ih (next t)

theorem iterNext_le (next : Int → Int) (p : Int) (hb : ∀ t, next t ≤ t + p) :
    ∀ (k : Nat) (t : Int), iterNext next k t ≤ t + (k : Int) * p := by
  intro k
  induction k with
  | zero => intro t; simp [iterNext]
  | succ k ih =>
    intro t
    have h1 : iterNext next (k + 1) t = iterNext next k (next t) := rfl
    have h2 := ih (next t)
    have h3 := hb t
    rw [h1]
    push_cast
    push_cast at h2
    linarith

/-- When the 101st element of the next-chain from `t` still lies before
`now`, the missed-starts loop runs out of budget and reports the
ceiling error. -/
theorem missedStartsLoop_error (next : Int → Int) (now : Int)
    (hgt : ∀ t, t < next t) :
    ∀ (fuel : Nat) (t : Int), iterNext next fuel t < now →
      missedStartsLoop next now t fuel = Except.error tooManyMissedMsg := by
  intro fuel
  induction fuel with
  | zero =>
    intro t h
    have ht : t < now := h
    show (if t < now then Except.error tooManyMissedMsg else Except.ok ()) =
      Except.error tooManyMissedMsg
    rw [if_pos ht]
  | succ f ih =>
    intro t h
    have ht : t < now :=
      lt_of_le_of_lt (self_le_iterNext next hgt (f + 1) t) h
    show (if t < now then missedStartsLoop next now (next t) f else Except.ok ()) =
      Except.error tooManyMissedMsg
    rw [if_pos ht]
    exact ih (next t) h

/-! ## Claim theorems -/

/-- Claim C1 (reverse-index consistency): after any sequence of
`updateMaps` / `cleanMaps` calls starting from the empty index, for every
request R and cluster T, `T ∈ techsupportMap[R]` iff `R ∈ clusterMap[T]`;
in particular no consumer set holds a request that does not currently
match the cluster (no stale reverse entries). -/
theorem reverseIndexConsistency (ops : List IndexOp) :
    consistent (runIndexOps ops emptyIndexState) :=
  consistent_runIndexOps ops emptyIndexState consistent_empty

/-- Counterexample to claim C2 as stated: for the every-minute schedule
with baseline 30 and `now = 120` — which is itself an occurrence —
`getNextScheduleTime` returns 180, not the earliest occurrence at/after
`now` (that would be 120 itself): the code returns `sched.Next(now)`,
which is strictly after `now`. -/
theorem nextScheduleSkipsOccurrenceAtNow :
    getNextScheduleTime minuteSched (some 30) 0 none 120 = Except.ok 180 ∧
    minuteSched.isOcc 120 ∧ ¬ (180 : Int) ≤ 120 := by
  refine ⟨rfl, ?_, by decide⟩
  show (120 : Int) % 60 = 0
  decide

/-- Claim C2 amended: whenever `getNextScheduleTime` succeeds it returns
the earliest occurrence strictly after `now` (an occurrence falling
exactly at `now` is skipped, the following one is returned). -/
theorem nextScheduleFirstOccurrenceAfterNow (sched : CronSchedule)
    (lastRunTime : Option Int) (creationTimestamp : Int)
    (startingDeadlineSeconds : Option Int) (now r : Int)
    (h : getNextScheduleTime sched lastRunTime creationTimestamp
      startingDeadlineSeconds now = Except.ok r) :
    sched.isOcc r ∧ now < r ∧ ∀ u, now < u → sched.isOcc u → r ≤ u := by
  have hr : r = sched.next now := by
    rcases hloop : missedStartsLoop sched.next now
        (sched.next (effectiveEarliestTime lastRunTime creationTimestamp
          startingDeadlineSeconds now)) 100 with e | u
    · rw [getNextScheduleTime, hloop] at h
      exact absurd h (by simp)
    · rw [getNextScheduleTime, hloop] at h
      simpa using h.symm
  subst hr
  exact ⟨sched.next_occ now, sched.next_gt now,
    fun u hu hocc => sched.next_least now u hu hocc⟩

theorem nextScheduleFirstOccurrenceAfterNowWitness :
    minuteSched.isOcc 180 ∧ (120 : Int) < 180 ∧
      ∀ u, (120 : Int) < u → minuteSched.isOcc u → (180 : Int) ≤ u :=
  nextScheduleFirstOccurrenceAfterNow minuteSched (some 30) 0 none 120 180 rfl

/-- Counterexample to claim C3 as stated: a CAPI Cluster update whose
readiness flag transitions false→true, with pause and labels unchanged,
is NOT admitted by `ClusterPredicate.Update` — the readiness disjunct
exists only in `SveltosClusterPredicate.Update`. -/
theorem capiReadinessTransitionRejected :
    clusterPredicateUpdate (some ⟨false, false, []⟩) ⟨false, true, []⟩ = false ∧
    (⟨false, false, []⟩ : CAPICluster).ready = false ∧
    (⟨false, true, []⟩ : CAPICluster).ready = true ∧
    (⟨false, false, []⟩ : CAPICluster).paused = (⟨false, true, []⟩ : CAPICluster).paused ∧
    (⟨false, false, []⟩ : CAPICluster).labels = (⟨false, true, []⟩ : CAPICluster).labels := by
  decide

/-- Claim C3 amended: with a non-nil old object, the SveltosCluster update
filter admits exactly on a pause true→false transition, a readiness
false→true transition, or a label change; the CAPI Cluster update filter
admits exactly on a pause true→false transition or a label change — it
has no readiness condition. -/
theorem updatePredicateCharacterization :
    (∀ o n : SveltosCluster,
        sveltosClusterPredicateUpdate (some o) n = true ↔
          (o.paused = true ∧ n.paused = false) ∨
          (o.ready = false ∧ n.ready = true) ∨ o.labels ≠ n.labels) ∧
    (∀ o n : CAPICluster,
        clusterPredicateUpdate (some o) n = true ↔
          (o.paused = true ∧ n.paused = false) ∨ o.labels ≠ n.labels) := by
  constructor
  · intro o n
    by_cases hl : o.labels = n.labels <;>
      cases ho : o.paused <;> cases hn : n.paused <;>
        cases hor : o.ready <;> cases hnr : n.ready <;>
          simp [sveltosClusterPredicateUpdate, ho, hn, hor, hnr, hl]
  · intro o n
    by_cases hl : o.labels = n.labels <;>
      cases ho : o.paused <;> cases hn : n.paused <;>
        simp [clusterPredicateUpdate, ho, hn, hl]

/-- Claim C4 (missed-run ceiling): for any schedule whose firing-period is
bounded by `p` and any baseline more than 101 firing-periods before
`now`, with no deadline-seconds set, `getNextScheduleTime` returns the
"too many missed start times" error. -/
theorem missedRunCeilingError (sched : CronSchedule) (p : Int)
    (lastRunTime : Option Int) (creationTimestamp now : Int)
    (hbound : ∀ t, sched.next t ≤ t + p)
    (hpast : scheduleBaseline lastRunTime creationTimestamp + 101 * p < now) :
    getNextScheduleTime sched lastRunTime creationTimestamp none now =
      Except.error tooManyMissedMsg := by
  set b := scheduleBaseline lastRunTime creationTimestamp with hb
  have hchain : iterNext sched.next 100 (sched.next b) < now := by
    have h1 : iterNext sched.next 101 b ≤ b + ((101 : Nat) : Int) * p :=
      iterNext_le sched.next p hbound 101 b
    have h2 : iterNext sched.next 101 b = iterNext sched.next 100 (sched.next b) := rfl
    rw [h2] at h1
    push_cast at h1
    linarith
  have hloop := missedStartsLoop_error sched.next now sched.next_gt 100
    (sched.next b) hchain
  have heff : effectiveEarliestTime lastRunTime creationTimestamp none now = b := rfl
  rw [getNextScheduleTime, heff, hloop]

theorem missedRunCeilingErrorWitness :
    (∀ t, minuteSched.next t ≤ t + 60) ∧
    scheduleBaseline none 0 + 101 * 60 < 6061 ∧
    getNextScheduleTime minuteSched none 0 none 6061 =
      Except.error tooManyMissedMsg :=
  ⟨minuteSched_next_le, by decide,
    missedRunCeilingError minuteSched 60 none 0 6061 minuteSched_next_le (by decide)⟩

/-- Claim C5 (debounce window): with the instance due
(`nextScheduleTime ≤ now`) and a non-nil last run time, `shouldSchedule`
returns false exactly when less than 30 seconds have elapsed since the
last run, and true at exactly 30 seconds and beyond. -/
theorem debounceWindow (nextTime last now : Int) (h : nextTime ≤ now) :
    (shouldSchedule nextTime (some last) now = false ↔ now - last < 30) ∧
    (shouldSchedule nextTime (some last) now = true ↔ 30 ≤ now - last) := by
  have hnb : ¬ now < nextTime := not_lt.mpr h
  simp only [shouldSchedule, if_neg hnb]
  constructor
  · simp only [decide_eq_false_iff_not]
    omega
  · simp only [decide_eq_true_eq]

theorem debounceWindowWitness :
    (0 : Int) ≤ 30 ∧
    ((shouldSchedule 0 (some 0) 30 = false ↔ (30 : Int) - 0 < 30) ∧
     (shouldSchedule 0 (some 0) 30 = true ↔ (30 : Int) ≤ 30 - 0)) :=
  ⟨by decide, debounceWindow 0 0 30 (by decide)⟩

/-- Claim C6: `updateStatus` maps a `Collected` result to last-run status
Collected, `InProgress` to InProgress, `Failed` to Failed while copying
the job error's text into the failure message, and `Unavailable` leaves
the instance exactly as it was. -/
theorem updateStatusFoldsResult (inst : CollectionInstanceStatus) (e : String) :
    updateStatus ⟨.Collected, e⟩ inst =
      { inst with lastRunStatus := some .CollectionStatusCollected,
                  failureMessage := "" } ∧
    updateStatus ⟨.InProgress, e⟩ inst =
      { inst with lastRunStatus := some .CollectionStatusInProgress,
                  failureMessage := "" } ∧
    updateStatus ⟨.Failed, e⟩ inst =
      { inst with lastRunStatus := some .CollectionStatusFailed,
                  failureMessage := e } ∧
    updateStatus ⟨.Unavailable, e⟩ inst = inst :=
  ⟨rfl, rfl, rfl, rfl⟩

/-- Claim C7 (purge failure during deletion): when `CleanupEntries` fails,
the terminating path returns that error, the finalizer list is untouched,
and the reverse index is left exactly as it was — deletion will be
retried rather than dropped. -/
theorem purgeFailureLeavesStateIntact (e : String) (updateErr : Option String)
    (finalizers : List String) (info : ObjectReference) (s : IndexState) :
    techsupportReconcilerDelete (some e) updateErr finalizers info s =
      ⟨⟨false, 0⟩, some e, finalizers, s⟩ :=
  rfl

/-- Claim C8 (deletion drains state): when purge and persistence both
succeed, the terminating path ends with no error, no `techsupportMap`
entry for the request, no `clusterMap` consumer set referencing it, and
the zero `reconcile.Result` (no further requeue). -/
theorem deletionDrainsState (finalizers : List String)
    (info : ObjectReference) (s : IndexState) :
    (techsupportReconcilerDelete none none finalizers info s).error = none ∧
    (techsupportReconcilerDelete none none finalizers info s).index.techsupportMap
      info = none ∧
    (∀ T, info ∉
      (techsupportReconcilerDelete none none finalizers info s).index.clusterMap T) ∧
    (techsupportReconcilerDelete none none finalizers info s).result = ⟨false, 0⟩ := by
  refine ⟨rfl, ?_, ?_, rfl⟩
  · show (cleanMaps info s).techsupportMap info = none
    simp [cleanMaps]
  · intro T
    show info ∉ (cleanMaps info s).clusterMap T
    simp [cleanMaps]

/-- Claim C9: for both watched target kinds, the update filter admits
whenever the event's old object is nil, whatever the new object holds. -/
theorem updatePredicateNilOld :
    (∀ n : CAPICluster, clusterPredicateUpdate none n = true) ∧
    (∀ n : SveltosCluster, sveltosClusterPredicateUpdate none n = true) :=
  ⟨fun _ => rfl, fun _ => rfl⟩

/-- Claim C10: `updateStatus` writes the empty string into the failure
message on `Collected` and `InProgress` results, clearing any message
left by a previous `Failed` run. -/
theorem updateStatusClearsFailureMessage (inst : CollectionInstanceStatus)
    (e : String) :
    (updateStatus ⟨.Collected, e⟩ inst).failureMessage = "" ∧
    (updateStatus ⟨.InProgress, e⟩ inst).failureMessage = "" :=
  ⟨rfl, rfl⟩

end Sveltosctl
